import Mathlib

/-!
Shallow embedding of the two 5-tuple flow-hash variants of this repository:

* Variant A: `murmur3_32` / `murmurhash3_5tuple` from
  `src/codesnip/hash/5-tuple-murmur3-hash.c` (MurmurHash3, 32-bit).
* Variant B: `jenkins_hash_5tuple` with the lookup3 `mix` / `final` macros from
  the second source file.

Machine integers are modelled as `Nat` with explicit reduction modulo `2^32`
wherever the C code's `uint32_t` arithmetic wraps.  The host's byte order,
which the C code's `memcpy`-based serialization and native-word block reads
depend on, is modelled explicitly by the `Endian` parameter.
-/

namespace FlowHash

/-- Modulus of 32-bit machine arithmetic, `2^32`. -/
def M32 : Nat := 4294967296

/-- Wrapping 32-bit addition (`uint32_t` addition). -/
def add32 (x y : Nat) : Nat := (x + y) % M32

/-- Wrapping 32-bit subtraction (`uint32_t` subtraction, two's-complement wraparound). -/
def sub32 (x y : Nat) : Nat := (x + M32 - y % M32) % M32

/-- Wrapping 32-bit multiplication (`uint32_t` multiplication). -/
def mul32 (x y : Nat) : Nat := x * y % M32

/-- 32-bit exclusive or; the reduction is the implicit truncation to `uint32_t`. -/
def xor32 (x y : Nat) : Nat := (x ^^^ y) % M32

/-- Function `rotl32` from the Variant A source: `(x << r) | (x >> (32 - r))` on
`uint32_t` (the left shift truncates to 32 bits). -/
def rotl32 (x : Nat) (r : Nat) : Nat := (x <<< r) % M32 ||| x >>> (32 - r)

/-- The `rot(x,k)` macro of the Variant B source: `(x << k) | (x >> (32 - k))`
on `uint32_t`. -/
def rot (x : Nat) (k : Nat) : Nat := (x <<< k) % M32 ||| x >>> (32 - k)

/-- A flow 5-tuple: the argument list shared by both hash entry points. -/
structure FlowKey where
  src_ip : Nat
  dst_ip : Nat
  src_port : Nat
  dst_port : Nat
  protocol : Nat
deriving DecidableEq

/-- The C parameter types: 32-bit addresses, 16-bit ports, 8-bit protocol. -/
def FlowKey.Valid (k : FlowKey) : Prop :=
  k.src_ip < 2 ^ 32 ∧ k.dst_ip < 2 ^ 32 ∧ k.src_port < 2 ^ 16 ∧
    k.dst_port < 2 ^ 16 ∧ k.protocol < 2 ^ 8

instance (k : FlowKey) : Decidable k.Valid := by
  unfold FlowKey.Valid; infer_instance

/-- Indexing into a byte array (out-of-range reads, which never occur on the
13-byte keys used here, default to 0). -/
def getB (key : List Nat) (i : Nat) : Nat := key.getD i 0

/-- The 13-byte key packed by `jenkins_hash_5tuple` (source lines 81-97):
explicit shift-and-mask little-endian packing of the five fields. -/
def packKey (k : FlowKey) : List Nat :=
  [k.src_ip &&& 0xFF, (k.src_ip >>> 8) &&& 0xFF,
   (k.src_ip >>> 16) &&& 0xFF, (k.src_ip >>> 24) &&& 0xFF,
   k.dst_ip &&& 0xFF, (k.dst_ip >>> 8) &&& 0xFF,
   (k.dst_ip >>> 16) &&& 0xFF, (k.dst_ip >>> 24) &&& 0xFF,
   k.src_port &&& 0xFF, (k.src_port >>> 8) &&& 0xFF,
   k.dst_port &&& 0xFF, (k.dst_port >>> 8) &&& 0xFF,
   k.protocol]

/-- Host byte order, on which `memcpy` of a multi-byte integer and a native
`uint32_t` load from a byte buffer depend. -/
inductive Endian
  | le
  | be

/-- Object-representation bytes of a 32-bit value on a host with byte order `e`
(the effect of `memcpy(dst, &x, 4)`). -/
def bytes4 : Endian → Nat → List Nat
  | Endian.le, x => [x % 256, x / 2 ^ 8 % 256, x / 2 ^ 16 % 256, x / 2 ^ 24 % 256]
  | Endian.be, x => [x / 2 ^ 24 % 256, x / 2 ^ 16 % 256, x / 2 ^ 8 % 256, x % 256]

/-- Object-representation bytes of a 16-bit value on a host with byte order `e`
(the effect of `memcpy(dst, &x, 2)`). -/
def bytes2 : Endian → Nat → List Nat
  | Endian.le, x => [x % 256, x / 2 ^ 8 % 256]
  | Endian.be, x => [x / 2 ^ 8 % 256, x % 256]

/-- The 13-byte buffer `data` built by `murmurhash3_5tuple` (source lines 87-92)
with `memcpy` of each field; the byte layout depends on the host byte order. -/
def packData (e : Endian) (k : FlowKey) : List Nat :=
  bytes4 e k.src_ip ++ bytes4 e k.dst_ip ++
    bytes2 e k.src_port ++ bytes2 e k.dst_port ++ [k.protocol]

/-- A native `uint32_t` load of four consecutive buffer bytes on a host with
byte order `e` (the `blocks[i]` read through `(const uint32_t*)key`). -/
def readWord (e : Endian) (b0 b1 b2 b3 : Nat) : Nat :=
  match e with
  | Endian.le => b0 ||| b1 <<< 8 ||| b2 <<< 16 ||| b3 <<< 24
  | Endian.be => b3 ||| b2 <<< 8 ||| b1 <<< 16 ||| b0 <<< 24

/-- First block-mixing constant `c1` of `murmur3_32`. -/
def c1 : Nat := 0xcc9e2d51

/-- Second block-mixing constant `c2` of `murmur3_32`. -/
def c2 : Nat := 0x1b873593

/-- Block `i` of the key as read by the `blocks[i]` native-word access in
`murmur3_32` (source line 50). -/
def murmurBlock (e : Endian) (key : List Nat) (i : Nat) : Nat :=
  readWord e (getB key (4 * i)) (getB key (4 * i + 1))
    (getB key (4 * i + 2)) (getB key (4 * i + 3))

/-- The three-line treatment `k1 *= c1; k1 = rotl32(k1, r); k1 *= c2;` that
`murmur3_32` applies to a full block and to the tail word alike (with `r = 15`). -/
def murmurKMix (r : Nat) (k1 : Nat) : Nat := mul32 (rotl32 (mul32 k1 c1) r) c2

/-- One iteration of the block loop of `murmur3_32` (source lines 49-59). -/
def murmurBlockStep (h1 k1 : Nat) : Nat :=
  let k1 := murmurKMix 15 k1
  let h1 := xor32 h1 k1
  let h1 := rotl32 h1 13
  add32 (mul32 h1 5) 0xe6546b64

/-- The block loop of `murmur3_32`: accumulator after processing blocks
`0, ..., n-1`, starting from the seed. -/
def murmurLoop (e : Endian) (key : List Nat) (seed : Nat) : Nat → Nat
  | 0 => seed
  | n + 1 => murmurBlockStep (murmurLoop e key seed n) (murmurBlock e key n)

/-- The finalization of `murmur3_32` (source lines 74-79): exclusive-or with the
byte length, then the shift-xor / multiply avalanche. -/
def murmurAvalanche (h len : Nat) : Nat :=
  let h := xor32 h len
  let h := xor32 h (h >>> 16)
  let h := mul32 h 0x85ebca6b
  let h := xor32 h (h >>> 13)
  let h := mul32 h 0xc2b2ae35
  xor32 h (h >>> 16)

/-- Function `murmur3_32` (source lines 41-82): block loop, fall-through tail
`switch` on `len & 3`, then finalization. -/
def murmur3_32 (e : Endian) (key : List Nat) (len seed : Nat) : Nat :=
  let nblocks := len / 4
  let h1 := murmurLoop e key seed nblocks
  let h1 :=
    if len % 4 = 0 then h1
    else
      let k1 : Nat := 0
      let k1 := if 3 ≤ len % 4 then xor32 k1 (getB key (nblocks * 4 + 2) <<< 16) else k1
      let k1 := if 2 ≤ len % 4 then xor32 k1 (getB key (nblocks * 4 + 1) <<< 8) else k1
      let k1 := xor32 k1 (getB key (nblocks * 4))
      xor32 h1 (murmurKMix 15 k1)
  murmurAvalanche h1 len

/-- Function `murmurhash3_5tuple` (source lines 84-95): pack the five fields
with `memcpy` into 13 bytes and hash them with `murmur3_32`. -/
def murmurhash3_5tuple (e : Endian) (k : FlowKey) (seed : Nat) : Nat :=
  murmur3_32 e (packData e k) 13 seed

/-- The three 32-bit state words `a`, `b`, `c` of lookup3. -/
structure St3 where
  a : Nat
  b : Nat
  c : Nat
deriving DecidableEq

/-- The lookup3 `mix(a,b,c)` macro (Variant B source lines 49-57). -/
def mix (s : St3) : St3 :=
  let a := s.a
  let b := s.b
  let c := s.c
  let a := sub32 a c; let a := xor32 a (rot c 4); let c := add32 c b
  let b := sub32 b a; let b := xor32 b (rot a 6); let a := add32 a c
  let c := sub32 c b; let c := xor32 c (rot b 8); let b := add32 b a
  let a := sub32 a c; let a := xor32 a (rot c 16); let c := add32 c b
  let b := sub32 b a; let b := xor32 b (rot a 19); let a := add32 a c
  let c := sub32 c b; let c := xor32 c (rot b 4); let b := add32 b a
  ⟨a, b, c⟩

/-- The lookup3 `final(a,b,c)` macro (Variant B source lines 60-69): seven
exclusive-or / subtract-rotate pairs. -/
def final (s : St3) : St3 :=
  let a := s.a
  let b := s.b
  let c := s.c
  let c := xor32 c b; let c := sub32 c (rot b 14)
  let a := xor32 a c; let a := sub32 a (rot c 11)
  let b := xor32 b a; let b := sub32 b (rot a 25)
  let c := xor32 c b; let c := sub32 c (rot b 16)
  let a := xor32 a c; let a := sub32 a (rot c 4)
  let b := xor32 b a; let b := sub32 b (rot a 14)
  let c := xor32 c b; let c := sub32 c (rot b 24)
  ⟨a, b, c⟩

/-- Function `jenkins_hash_5tuple` (Variant B source lines 73-125): pack the key,
initialize `a = b = c = 0xdeadbeef + 13 + seed`, absorb the one 12-byte block
and the trailing byte, run `final`, return `c`. -/
def jenkins_hash_5tuple (k : FlowKey) (seed : Nat) : Nat :=
  let key := packKey k
  let length : Nat := 13
  let init : Nat := (0xdeadbeef + length + seed) % M32
  let a := init
  let b := init
  let c := init
  let a := add32 a (getB key 0 ||| getB key 1 <<< 8 ||| getB key 2 <<< 16 ||| getB key 3 <<< 24)
  let b := add32 b (getB key 4 ||| getB key 5 <<< 8 ||| getB key 6 <<< 16 ||| getB key 7 <<< 24)
  let c := add32 c (getB key 8 ||| getB key 9 <<< 8 ||| getB key 10 <<< 16 ||| getB key 11 <<< 24)
  let a := if length - 12 = 1 then add32 a (getB key 12) else a
  (final ⟨a, b, c⟩).c

/-!
Specification-side definitions.  These follow the wording of the natural
language specification (and of the claims derived from it), to be compared
with the source-translated definitions above.
-/

/-- Little-endian encoding of a 32-bit value into four bytes, as the
specification describes serialization: byte `i` is `value / 2^(8*i) mod 256`. -/
def leBytes4 (x : Nat) : List Nat :=
  [x % 256, x / 2 ^ 8 % 256, x / 2 ^ 16 % 256, x / 2 ^ 24 % 256]

/-- Little-endian encoding of a 16-bit value into two bytes. -/
def leBytes2 (x : Nat) : List Nat := [x % 256, x / 2 ^ 8 % 256]

/-- The 13-byte serialized key as the specification describes it: bytes 0-3 the
source address (little-endian), 4-7 the destination address, 8-9 the source
port, 10-11 the destination port, byte 12 the protocol, no padding. -/
def specBytes (k : FlowKey) : List Nat :=
  leBytes4 k.src_ip ++ leBytes4 k.dst_ip ++
    leBytes2 k.src_port ++ leBytes2 k.dst_port ++ [k.protocol]

/-- Little-endian decode of four bytes into a 32-bit word, arithmetic form. -/
def leWord4 (b0 b1 b2 b3 : Nat) : Nat :=
  b0 + 2 ^ 8 * b1 + 2 ^ 16 * b2 + 2 ^ 24 * b3

/-- Left rotation of a 32-bit value by `r`, in arithmetic form: the high
`32 - r` bits move up by `r` places and the low bits wrap to the bottom. -/
def rotlRef (x r : Nat) : Nat := x % 2 ^ (32 - r) * 2 ^ r + x / 2 ^ (32 - r)

/-- Reference MurmurHash3-32 block transform as the specification describes it:
the block is multiplied by 0xcc9e2d51, rotated left by 15, multiplied by
0x1b873593 and exclusive-ored into the accumulator, after which the accumulator
is rotated left by 13 and set to accumulator * 5 + 0xe6546b64 (mod 2^32). -/
def murmurRefStep (h k : Nat) : Nat :=
  let k := k * 0xcc9e2d51 % M32
  let k := rotlRef k 15
  let k := k * 0x1b873593 % M32
  let h := (h ^^^ k) % M32
  let h := rotlRef h 13
  (h * 5 + 0xe6546b64) % M32

/-- Block `i` of the serialized key, decoded little-endian (reference side). -/
def murmurRefBlock (bytes : List Nat) (i : Nat) : Nat :=
  leWord4 (getB bytes (4 * i)) (getB bytes (4 * i + 1))
    (getB bytes (4 * i + 2)) (getB bytes (4 * i + 3))

/-- Reference tail step: the trailing byte is given the same
multiply-rotate-multiply treatment as a full block and exclusive-ored into the
accumulator. -/
def murmurRefTail (h b : Nat) : Nat :=
  let k := b * 0xcc9e2d51 % M32
  let k := rotlRef k 15
  let k := k * 0x1b873593 % M32
  (h ^^^ k) % M32

/-- Reference finalization: exclusive-or with the byte length 13, then three
rounds of shift-right exclusive-or / multiply with constants 0x85ebca6b and
0xc2b2ae35 and shift amounts 16, 13, 16, ending with a final shift-right
exclusive-or. -/
def murmurRefAvalanche (h : Nat) : Nat :=
  let h := (h ^^^ 13) % M32
  let h := (h ^^^ h / 2 ^ 16) % M32
  let h := h * 0x85ebca6b % M32
  let h := (h ^^^ h / 2 ^ 13) % M32
  let h := h * 0xc2b2ae35 % M32
  (h ^^^ h / 2 ^ 16) % M32

/-- Reference MurmurHash3-32 digest of a 13-byte key: the accumulator starts at
the seed, the three full blocks are mixed in, the trailing byte is folded in,
and the avalanche finalization produces the digest. -/
def murmur3_ref (bytes : List Nat) (seed : Nat) : Nat :=
  murmurRefAvalanche
    (murmurRefTail
      (murmurRefStep
        (murmurRefStep
          (murmurRefStep seed (murmurRefBlock bytes 0))
          (murmurRefBlock bytes 1))
        (murmurRefBlock bytes 2))
      (getB bytes 12))

/-- Initial value of all three Variant B state words, as the specification
describes it: 0xdeadbeef + total length 13 + seed, wrapping modulo 2^32. -/
def jenkinsInit (seed : Nat) : Nat := (0xdeadbeef + 13 + seed) % M32

/-- Input word `j` of Variant B: bytes `4j ... 4j+3` of the key, little-endian. -/
def jenkinsWord (key : List Nat) (j : Nat) : Nat :=
  leWord4 (getB key (4 * j)) (getB key (4 * j + 1))
    (getB key (4 * j + 2)) (getB key (4 * j + 3))

/-- Variant B state after absorption, as the claims describe it: word0 added
into A (plus the trailing byte 12, added into A only), word1 into B, word2
into C; no mix rounds. -/
def jenkinsAbsorbed (k : FlowKey) (seed : Nat) : St3 :=
  let key := packKey k
  ⟨add32 (add32 (jenkinsInit seed) (jenkinsWord key 0)) (getB key 12),
   add32 (jenkinsInit seed) (jenkinsWord key 1),
   add32 (jenkinsInit seed) (jenkinsWord key 2)⟩

/-- The six-operation finalization that the specification describes: six
exclusive-or / subtract-rotate pairs with rotate sequence 14, 11, 25, 16, 4,
14, after which the output would be word C. -/
def finalSix (s : St3) : St3 :=
  let a := s.a
  let b := s.b
  let c := s.c
  let c := xor32 c b; let c := sub32 c (rot b 14)
  let a := xor32 a c; let a := sub32 a (rot c 11)
  let b := xor32 b a; let b := sub32 b (rot a 25)
  let c := xor32 c b; let c := sub32 c (rot b 16)
  let a := xor32 a c; let a := sub32 a (rot c 4)
  let b := xor32 b a; let b := sub32 b (rot a 14)
  ⟨a, b, c⟩

/-- The seven-operation finalization (amended description): seven exclusive-or /
subtract-rotate pairs with rotate sequence 14, 11, 25, 16, 4, 14, 24. -/
def finalSeven (s : St3) : St3 :=
  let a := s.a
  let b := s.b
  let c := s.c
  let c := xor32 c b; let c := sub32 c (rot b 14)
  let a := xor32 a c; let a := sub32 a (rot c 11)
  let b := xor32 b a; let b := sub32 b (rot a 25)
  let c := xor32 c b; let c := sub32 c (rot b 16)
  let a := xor32 a c; let a := sub32 a (rot c 4)
  let b := xor32 b a; let b := sub32 b (rot a 14)
  let c := xor32 c b; let c := sub32 c (rot b 24)
  ⟨a, b, c⟩

/-- Rotate counts used by the `rotl32` calls of Variant A, in order of first
appearance (block/tail multiply-rotate-multiply, then the accumulator rotate). -/
def murmurRotsA : List Nat := [15, 13]

/-- Rotate counts of the six lines of the `mix` macro, in order. -/
def mixRots : List Nat := [4, 6, 8, 16, 19, 4]

/-- Rotate counts of the seven lines of the `final` macro, in order. -/
def finalRots : List Nat := [14, 11, 25, 16, 4, 14, 24]

/-- Every rotate count either variant ever passes to its rotation helper. -/
def allRots : List Nat := murmurRotsA ++ mixRots ++ finalRots

/-- One line of the `mix` macro (`a -= c; a ^= rot(c,r); c += b;`), with the
three words arranged so that the next line reads the components in the same
positions: the returned triple is (old b, updated c, updated a). -/
def mixStep (r : Nat) (s : St3) : St3 :=
  ⟨s.b, add32 s.c s.b, xor32 (sub32 s.a s.c) (rot s.c r)⟩

/-- The `mix` macro as a fold of its six lines over their rotate counts. -/
def mixFold (rs : List Nat) (s : St3) : St3 :=
  rs.foldl (fun s r => mixStep r s) s

/-- One line of the `final` macro (`c ^= b; c -= rot(b,r);`), with the words
arranged so that the next line reads the components in the same positions:
the returned triple is (old b, updated c, old a). -/
def finalStep (r : Nat) (s : St3) : St3 :=
  ⟨s.b, sub32 (xor32 s.c s.b) (rot s.b r), s.a⟩

/-- The `final` macro as a fold of its seven lines over their rotate counts
(the trailing permutation undoes the role rotation of the seven steps). -/
def finalFold (rs : List Nat) (s : St3) : St3 :=
  let t := rs.foldl (fun s r => finalStep r s) s
  ⟨t.c, t.a, t.b⟩

/-- The Variant A block step with its two rotate counts as parameters. -/
def murmurBlockStepR (r1 r2 : Nat) (h1 k1 : Nat) : Nat :=
  let k1 := murmurKMix r1 k1
  let h1 := xor32 h1 k1
  let h1 := rotl32 h1 r2
  add32 (mul32 h1 5) 0xe6546b64

/-- Recovery of the five fields from the 13 serialized bytes (inverse of the
packing, used to state that serialization is injective). -/
def unpackKey (bytes : List Nat) : FlowKey :=
  { src_ip := getB bytes 0 + 2 ^ 8 * getB bytes 1 + 2 ^ 16 * getB bytes 2 +
      2 ^ 24 * getB bytes 3
    dst_ip := getB bytes 4 + 2 ^ 8 * getB bytes 5 + 2 ^ 16 * getB bytes 6 +
      2 ^ 24 * getB bytes 7
    src_port := getB bytes 8 + 2 ^ 8 * getB bytes 9
    dst_port := getB bytes 10 + 2 ^ 8 * getB bytes 11
    protocol := getB bytes 12 }

/-- The sample 5-tuple used by both demonstration `main` programs:
192.168.1.1 -> 8.8.8.8, ports 12345 -> 80, protocol 6 (TCP). -/
def sampleKey : FlowKey := ⟨0xC0A80101, 0x08080808, 12345, 80, 6⟩

/-- The sample seed used by both demonstration `main` programs. -/
def sampleSeed : Nat := 0x12345678

/-!
Helper lemmas.
-/

theorem M32_eq : M32 = 2 ^ 32 := by norm_num [M32]

theorem M32_pos : 0 < M32 := by norm_num [M32]

theorem add32_lt (x y : Nat) : add32 x y < M32 := Nat.mod_lt _ M32_pos

theorem sub32_lt (x y : Nat) : sub32 x y < M32 := Nat.mod_lt _ M32_pos

theorem mul32_lt (x y : Nat) : mul32 x y < M32 := Nat.mod_lt _ M32_pos

theorem xor32_lt (x y : Nat) : xor32 x y < M32 := Nat.mod_lt _ M32_pos

theorem and255_eq_mod (x : Nat) : x &&& 255 = x % 256 := by
  have h := Nat.and_pow_two_sub_one_eq_mod x 8
  norm_num at h
  exact h

theorem lor_shiftLeft_eq_add {x : Nat} (y k : Nat) (hx : x < 2 ^ k) :
    x ||| y <<< k = x + y <<< k := by
  have h := Nat.mul_add_lt_is_or hx y
  rw [Nat.shiftLeft_eq, Nat.mul_comm y, Nat.or_comm, ← h]
  omega

theorem or4_eq_add {b0 b1 b2 b3 : Nat} (h0 : b0 < 256) (h1 : b1 < 256)
    (h2 : b2 < 256) (h3 : b3 < 256) :
    b0 ||| b1 <<< 8 ||| b2 <<< 16 ||| b3 <<< 24 =
      b0 + 2 ^ 8 * b1 + 2 ^ 16 * b2 + 2 ^ 24 * b3 := by
  have e1 : b0 ||| b1 <<< 8 = b0 + b1 <<< 8 :=
    lor_shiftLeft_eq_add b1 8 (by omega)
  have l1 : b0 + b1 <<< 8 < 2 ^ 16 := by
    rw [Nat.shiftLeft_eq]; omega
  have e2 : b0 ||| b1 <<< 8 ||| b2 <<< 16 = b0 + b1 <<< 8 + b2 <<< 16 := by
    rw [e1]; exact lor_shiftLeft_eq_add b2 16 l1
  have l2 : b0 + b1 <<< 8 + b2 <<< 16 < 2 ^ 24 := by
    rw [Nat.shiftLeft_eq, Nat.shiftLeft_eq]; omega
  have e3 : b0 ||| b1 <<< 8 ||| b2 <<< 16 ||| b3 <<< 24 =
      b0 + b1 <<< 8 + b2 <<< 16 + b3 <<< 24 := by
    rw [e2]; exact lor_shiftLeft_eq_add b3 24 l2
  rw [e3, Nat.shiftLeft_eq, Nat.shiftLeft_eq, Nat.shiftLeft_eq]
  ring

theorem rotl32_eq_rotlRef {x : Nat} (r : Nat) (hx : x < M32) (hr : r ≤ 32) :
    rotl32 x r = rotlRef x r := by
  have hpow : (2 : Nat) ^ (32 - r) * 2 ^ r = 2 ^ 32 := by
    rw [← pow_add]; congr 1; omega
  have hM : M32 = 2 ^ (32 - r) * 2 ^ r := by rw [hpow, M32_eq]
  have hpos : 0 < (2 : Nat) ^ (32 - r) := pow_pos (by norm_num) _
  have hdiv : x >>> (32 - r) < 2 ^ r := by
    rw [Nat.shiftRight_eq_div_pow, Nat.div_lt_iff_lt_mul hpos]
    calc x < M32 := hx
      _ = 2 ^ (32 - r) * 2 ^ r := hM
      _ = 2 ^ r * 2 ^ (32 - r) := Nat.mul_comm _ _
  have hadd := lor_shiftLeft_eq_add (x % 2 ^ (32 - r)) r hdiv
  rw [Nat.shiftLeft_eq] at hadd
  unfold rotl32 rotlRef
  rw [Nat.shiftLeft_eq, hM, Nat.mul_mod_mul_right, Nat.or_comm, hadd,
    Nat.shiftRight_eq_div_pow]
  exact Nat.add_comm _ _

theorem getB_packData_le_lt (k : FlowKey) :
    ∀ i, i < 12 → getB (packData Endian.le k) i < 256 := by
  intro i hi
  obtain ⟨sa, da, sp, dp, pr⟩ := k
  interval_cases i <;> simp [packData, bytes4, bytes2, getB] <;> omega

theorem getB_packKey_lt (k : FlowKey) :
    ∀ i, i < 12 → getB (packKey k) i < 256 := by
  intro i hi
  obtain ⟨sa, da, sp, dp, pr⟩ := k
  interval_cases i <;> simp [packKey, getB, and255_eq_mod] <;> omega

theorem murmur3_32_at_13 (e : Endian) (key : List Nat) (s : Nat) :
    murmur3_32 e key 13 s =
      murmurAvalanche
        (xor32 (murmurLoop e key s 3) (murmurKMix 15 (xor32 0 (getB key 12)))) 13 := by
  simp [murmur3_32]

theorem murmurLoop_three (e : Endian) (key : List Nat) (s : Nat) :
    murmurLoop e key s 3 =
      murmurBlockStep
        (murmurBlockStep (murmurBlockStep s (murmurBlock e key 0)) (murmurBlock e key 1))
        (murmurBlock e key 2) := rfl

theorem murmurBlock_le_eq_ref (key : List Nat) (i : Nat)
    (h0 : getB key (4 * i) < 256) (h1 : getB key (4 * i + 1) < 256)
    (h2 : getB key (4 * i + 2) < 256) (h3 : getB key (4 * i + 3) < 256) :
    murmurBlock Endian.le key i = murmurRefBlock key i := by
  unfold murmurBlock murmurRefBlock readWord leWord4
  exact or4_eq_add h0 h1 h2 h3

theorem murmurBlockStep_eq_refStep (h k : Nat) :
    murmurBlockStep h k = murmurRefStep h k := by
  simp only [murmurBlockStep, murmurRefStep, murmurKMix, mul32, xor32, add32, c1, c2]
  rw [rotl32_eq_rotlRef 15 (Nat.mod_lt _ M32_pos) (by norm_num),
    rotl32_eq_rotlRef 13 (Nat.mod_lt _ M32_pos) (by norm_num)]
  simp [Nat.mod_add_mod]

theorem murmurTail_eq_refTail (h b : Nat) :
    xor32 h (murmurKMix 15 (xor32 0 b)) = murmurRefTail h b := by
  simp only [murmurKMix, murmurRefTail, mul32, xor32, Nat.zero_xor, c1, c2]
  rw [Nat.mod_mul_mod,
    rotl32_eq_rotlRef 15 (Nat.mod_lt _ M32_pos) (by norm_num)]

theorem murmurAvalanche_13_eq (h : Nat) :
    murmurAvalanche h 13 = murmurRefAvalanche h := by
  simp only [murmurAvalanche, murmurRefAvalanche, xor32, mul32,
    Nat.shiftRight_eq_div_pow]

theorem jenkins_unfold (k : FlowKey) (s : Nat) :
    jenkins_hash_5tuple k s =
      (final
        ⟨add32
            (add32 ((0xdeadbeef + 13 + s) % M32)
              (getB (packKey k) 0 ||| getB (packKey k) 1 <<< 8 |||
                getB (packKey k) 2 <<< 16 ||| getB (packKey k) 3 <<< 24))
            (getB (packKey k) 12),
          add32 ((0xdeadbeef + 13 + s) % M32)
            (getB (packKey k) 4 ||| getB (packKey k) 5 <<< 8 |||
              getB (packKey k) 6 <<< 16 ||| getB (packKey k) 7 <<< 24),
          add32 ((0xdeadbeef + 13 + s) % M32)
            (getB (packKey k) 8 ||| getB (packKey k) 9 <<< 8 |||
              getB (packKey k) 10 <<< 16 ||| getB (packKey k) 11 <<< 24)⟩).c := rfl

theorem jenkins_eq_final_absorbed (k : FlowKey) (s : Nat) :
    jenkins_hash_5tuple k s = (final (jenkinsAbsorbed k s)).c := by
  have hb := getB_packKey_lt k
  rw [jenkins_unfold,
    or4_eq_add (hb 0 (by norm_num)) (hb 1 (by norm_num)) (hb 2 (by norm_num))
      (hb 3 (by norm_num)),
    or4_eq_add (hb 4 (by norm_num)) (hb 5 (by norm_num)) (hb 6 (by norm_num))
      (hb 7 (by norm_num)),
    or4_eq_add (hb 8 (by norm_num)) (hb 9 (by norm_num)) (hb 10 (by norm_num))
      (hb 11 (by norm_num))]
  rfl

theorem murmurAvalanche_lt (h l : Nat) : murmurAvalanche h l < M32 := by
  simp only [murmurAvalanche]
  exact xor32_lt _ _

theorem final_c_lt (s : St3) : (final s).c < M32 := by
  simp only [final]
  exact sub32_lt _ _

theorem packKey_roundtrip (k : FlowKey) (hv : k.Valid) : unpackKey (packKey k) = k := by
  obtain ⟨sa, da, sp, dp, pr⟩ := k
  have h1 : sa < 4294967296 := hv.1
  have h2 : da < 4294967296 := hv.2.1
  have h3 : sp < 65536 := hv.2.2.1
  have h4 : dp < 65536 := hv.2.2.2.1
  show FlowKey.mk
      ((sa &&& 255) + 2 ^ 8 * ((sa >>> 8) &&& 255) + 2 ^ 16 * ((sa >>> 16) &&& 255) +
        2 ^ 24 * ((sa >>> 24) &&& 255))
      ((da &&& 255) + 2 ^ 8 * ((da >>> 8) &&& 255) + 2 ^ 16 * ((da >>> 16) &&& 255) +
        2 ^ 24 * ((da >>> 24) &&& 255))
      ((sp &&& 255) + 2 ^ 8 * ((sp >>> 8) &&& 255))
      ((dp &&& 255) + 2 ^ 8 * ((dp >>> 8) &&& 255))
      pr = ⟨sa, da, sp, dp, pr⟩
  simp only [and255_eq_mod, Nat.shiftRight_eq_div_pow, FlowKey.mk.injEq, and_true]
  refine ⟨?_, ?_, ?_, ?_⟩ <;> simp only [Nat.reducePow] <;> omega

/-!
Claim theorems.
-/

/-- C1: for every 5-tuple and every seed, Variant A's digest equals the
reference MurmurHash3-32 computation: the accumulator starts at the seed; each
of the three full 4-byte little-endian blocks is multiplied by 0xcc9e2d51,
rotated left by 15, multiplied by 0x1b873593 and exclusive-ored into the
accumulator, which is then rotated left by 13 and set to
accumulator * 5 + 0xe6546b64; the trailing byte is folded in, and finalization
exclusive-ors the accumulator with the byte length 13 and applies the
shift-xor / multiply avalanche with constants 0x85ebca6b and 0xc2b2ae35 and
shift amounts 16, 13, 16, ending with a final shift-right exclusive-or. -/
theorem murmurA_matches_reference (k : FlowKey) (s : Nat) :
    murmurhash3_5tuple Endian.le k s = murmur3_ref (packData Endian.le k) s := by
  have hb := getB_packData_le_lt k
  have b0 : murmurBlock Endian.le (packData Endian.le k) 0 =
      murmurRefBlock (packData Endian.le k) 0 :=
    murmurBlock_le_eq_ref _ 0 (hb 0 (by norm_num)) (hb 1 (by norm_num))
      (hb 2 (by norm_num)) (hb 3 (by norm_num))
  have b1 : murmurBlock Endian.le (packData Endian.le k) 1 =
      murmurRefBlock (packData Endian.le k) 1 :=
    murmurBlock_le_eq_ref _ 1 (hb 4 (by norm_num)) (hb 5 (by norm_num))
      (hb 6 (by norm_num)) (hb 7 (by norm_num))
  have b2 : murmurBlock Endian.le (packData Endian.le k) 2 =
      murmurRefBlock (packData Endian.le k) 2 :=
    murmurBlock_le_eq_ref _ 2 (hb 8 (by norm_num)) (hb 9 (by norm_num))
      (hb 10 (by norm_num)) (hb 11 (by norm_num))
  show murmur3_32 Endian.le (packData Endian.le k) 13 s = _
  rw [murmur3_32_at_13, murmurLoop_three, b0, b1, b2]
  simp only [murmurBlockStep_eq_refStep]
  rw [murmurTail_eq_refTail, murmurAvalanche_13_eq]
  rfl

/-- C2 counterexample: at the demonstration 5-tuple and seed, the digest
returned by Variant B differs from word C after the six-operation finalization
with rotate sequence (14, 11, 25, 16, 4, 14) that the claim describes, so the
finalization is not that six-operation sequence. -/
theorem jenkins_not_six_op_finalization :
    jenkins_hash_5tuple sampleKey sampleSeed ≠
      (finalSix (jenkinsAbsorbed sampleKey sampleSeed)).c := by decide

/-- C2 (amended): Variant B's finalization consists of seven paired operations
with the fixed rotate sequence (14, 11, 25, 16, 4, 14, 24), after which the
returned digest is word C: for every 5-tuple and seed the digest is word C of
the state after exactly this seven-operation finalization. -/
theorem jenkins_seven_op_finalization (k : FlowKey) (s : Nat) :
    jenkins_hash_5tuple k s = (finalSeven (jenkinsAbsorbed k s)).c := by
  have h : finalSeven (jenkinsAbsorbed k s) = final (jenkinsAbsorbed k s) := rfl
  rw [h]
  exact jenkins_eq_final_absorbed k s

/-- C3: for every 5-tuple and seed, Variant B initializes all three state words
to 0xdeadbeef + 13 + seed (mod 2^32), adds word0 (key bytes 0-3, little-endian)
into A, word1 into B, word2 into C and the single trailing byte 12 into A only,
and applies no intermediate mix rounds: the digest is word C of the `final`
macro applied directly to the absorbed state. -/
theorem jenkins_absorption (k : FlowKey) (s : Nat) :
    jenkins_hash_5tuple k s = (final (jenkinsAbsorbed k s)).c :=
  jenkins_eq_final_absorbed k s

/-- C4: in Variant A, for every 5-tuple and seed, the trailing byte (13 mod 4 =
1) is folded into a partial 32-bit word, given the same multiply-by-0xcc9e2d51
/ rotate-left-15 / multiply-by-0x1b873593 treatment as a full block, and
exclusive-ored into the accumulator before finalization; the tail step is never
skipped, and the digest depends on the protocol byte. -/
theorem murmurA_tail_byte :
    (∀ (k : FlowKey) (s : Nat),
      murmurhash3_5tuple Endian.le k s =
        murmurAvalanche
          (xor32 (murmurLoop Endian.le (packData Endian.le k) s 3)
            (murmurKMix 15 (xor32 0 (getB (packData Endian.le k) 12)))) 13) ∧
    murmurhash3_5tuple Endian.le ⟨0xC0A80101, 0x08080808, 12345, 80, 6⟩ sampleSeed ≠
      murmurhash3_5tuple Endian.le ⟨0xC0A80101, 0x08080808, 12345, 80, 17⟩ sampleSeed := by
  constructor
  · intro k s
    exact murmur3_32_at_13 Endian.le (packData Endian.le k) s
  · decide

/-- C5: for every FlowKey, serialization produces exactly 13 bytes, fields
concatenated in fixed order, each field least-significant-byte-first: bytes 0-3
the source address, 4-7 the destination address, 8-9 the source port, 10-11 the
destination port, byte 12 the protocol, with no padding (and Variant A's byte
buffer on a little-endian host has the same layout). -/
theorem serialization_layout (k : FlowKey) :
    (packKey k).length = 13 ∧ packKey k = specBytes k ∧
      packData Endian.le k = specBytes k := by
  obtain ⟨sa, da, sp, dp, pr⟩ := k
  refine ⟨rfl, ?_, rfl⟩
  simp [packKey, specBytes, leBytes4, leBytes2, and255_eq_mod,
    Nat.shiftRight_eq_div_pow]

/-- C6: both hash variants are total: every combination of field values and
seed (on either host byte order, including all zeros) produces a defined 32-bit
output, all arithmetic wrapping modulo 2^32. -/
theorem hash_totality (e : Endian) (k : FlowKey) (s : Nat) :
    murmurhash3_5tuple e k s < 2 ^ 32 ∧ jenkins_hash_5tuple k s < 2 ^ 32 := by
  constructor
  · have h2 : murmurhash3_5tuple e k s = murmur3_32 e (packData e k) 13 s := rfl
    rw [h2, murmur3_32_at_13, ← M32_eq]
    exact murmurAvalanche_lt _ _
  · rw [jenkins_eq_final_absorbed, ← M32_eq]
    exact final_c_lt _

/-- C7: each variant is deterministic and referentially transparent: for every
(FlowKey, seed) pair, two invocations of the same pure hash function yield the
identical digest. -/
theorem hash_deterministic (e : Endian) (k : FlowKey) (s : Nat) :
    murmurhash3_5tuple e k s = murmurhash3_5tuple e k s ∧
      jenkins_hash_5tuple k s = jenkins_hash_5tuple k s :=
  ⟨rfl, rfl⟩

/-- C8: on a little-endian host, Variant A's memcpy-based serialization agrees
byte for byte with Variant B's explicit shift-based little-endian packing; but
on a big-endian host the memcpy serialization plus native-word block reads
produce a digest different from the explicit little-endian decode, exhibited at
the demonstration 5-tuple and seed (the latent portability bug the
specification's design note records). -/
theorem memcpy_native_reads_endianness :
    (∀ k : FlowKey, packData Endian.le k = packKey k) ∧
    murmurhash3_5tuple Endian.be sampleKey sampleSeed ≠
      murmur3_32 Endian.le (packKey sampleKey) 13 sampleSeed := by
  constructor
  · intro k
    obtain ⟨sa, da, sp, dp, pr⟩ := k
    simp [packData, packKey, bytes4, bytes2, and255_eq_mod,
      Nat.shiftRight_eq_div_pow]
  · decide

/-- C9: key serialization is injective on the C argument domain: the five
fields can be recovered exactly from the 13 packed bytes, and two valid
5-tuples with equal packed keys are equal. -/
theorem serialization_injective :
    (∀ k : FlowKey, k.Valid → unpackKey (packKey k) = k) ∧
    ∀ k1 k2 : FlowKey, k1.Valid → k2.Valid → packKey k1 = packKey k2 → k1 = k2 := by
  refine ⟨fun k hv => packKey_roundtrip k hv, fun k1 k2 h1 h2 heq => ?_⟩
  have h := congrArg unpackKey heq
  rwa [packKey_roundtrip k1 h1, packKey_roundtrip k2 h2] at h

/-- Witness for C9 at the demonstration 5-tuple. -/
theorem serialization_injective_witness :
    unpackKey (packKey sampleKey) = sampleKey ∧ sampleKey = sampleKey :=
  ⟨serialization_injective.1 sampleKey (by decide),
   serialization_injective.2 sampleKey sampleKey (by decide) (by decide) rfl⟩

/-- C10: every rotate invocation in either variant uses a count r with
1 <= r <= 31 (Variant A: 15 and 13; Variant B mix: 4, 6, 8, 16, 19, 4;
Variant B final: 14, 11, 25, 16, 4, 14, 24), so both shift amounts r and
32 - r in the rotation expression lie strictly between 0 and 32; the lists of
counts are tied to the code by the fold characterizations of `mix` and `final`
and the parameterized form of the block step. -/
theorem rotate_counts_in_range :
    (∀ s : St3, mix s = mixFold mixRots s) ∧
    (∀ s : St3, final s = finalFold finalRots s) ∧
    (∀ h k1 : Nat, murmurBlockStep h k1 =
      murmurBlockStepR (murmurRotsA.getD 0 0) (murmurRotsA.getD 1 0) h k1) ∧
    ∀ r ∈ allRots, 1 ≤ r ∧ r ≤ 31 ∧ 1 ≤ 32 - r ∧ 32 - r ≤ 31 := by
  refine ⟨fun s => rfl, fun s => rfl, fun h k1 => rfl, ?_⟩
  intro r hr
  fin_cases hr <;> refine ⟨by norm_num, by norm_num, by norm_num, by norm_num⟩

/-- Witness for C10 at the rotate count 15. -/
theorem rotate_counts_in_range_witness :
    1 ≤ 15 ∧ 15 ≤ 31 ∧ 1 ≤ 32 - 15 ∧ 32 - 15 ≤ 31 :=
  rotate_counts_in_range.2.2.2 15 (by decide)

end FlowHash
